import Mathlib

/-!
Verification of the state-reconciliation protocol of the qubes-mgmt-salt-dom0-qvm
repository: the prefs scalar-property reconciler (src/_modules/qvm.py `_Prefs.__call__`
and src/_modules/ext_module_qvm.py `prefs`), the duplicate-removal loop shared by
`service`/`features`/`tags`, the `tags` set reconciler, and the `vm` action sequencer
of src/_states/ext_state_qvm.py.  Python dictionaries are embedded as association
lists in insertion order, Python objects holding attribute tables as association
lists, and the salt `__opts__['test']` flag as an explicit boolean parameter.
-/

namespace QvmVerify

/-- Model of the loosely-typed Python values that flow through the reconcilers:
strings, integers, booleans, the Python `None`, and a sentinel `marker` standing
for both the `MARKER` default of `getattr(vm, key, MARKER)` in
src/_modules/qvm.py and the `Null` default used by src/_modules/ext_module_qvm.py. -/
inductive PyVal : Type
  | str (s : String)
  | int (n : Int)
  | bool (b : Bool)
  | pynone
  | marker
  deriving DecidableEq

/-- Numeric view used by Python equality: `True == 1` holds because `bool` is an
`int` subclass. -/
def pyNum : PyVal → Option Int
  | .int n => some n
  | .bool b => some (if b then 1 else 0)
  | _ => none

/-- Python `==` on the embedded values: strings compare as strings, ints and
bools compare numerically (`True == 1`), `None` and the missing-attribute
sentinel compare equal only to themselves, and cross-kind comparisons are
false. -/
def pyEq : PyVal → PyVal → Bool
  | .str a, .str b => a == b
  | .pynone, .pynone => true
  | .marker, .marker => true
  | a, b =>
    match pyNum a, pyNum b with
    | some m, some n => m == n
    | _, _ => false

/-- Python `str()` of an embedded value, as used when a value is interpolated
into a status message. -/
def pyValStr : PyVal → String
  | .str s => s
  | .int n => toString n
  | .bool b => if b then "True" else "False"
  | .pynone => "None"
  | .marker => "Null"

/-- Character-wise map over a string, written on the underlying character
list so that terms reduce inside the kernel. -/
def mapChars (f : Char → Char) (s : String) : String :=
  ⟨s.data.map f⟩

/-- Python `str.lower()`. -/
def lowerStr (s : String) : String :=
  mapChars Char.toLower s

/-- Python `str.strip()`: drop whitespace from both ends. -/
def stripStr (s : String) : String :=
  ⟨((s.data.dropWhile Char.isWhitespace).reverse.dropWhile
      Char.isWhitespace).reverse⟩

/-- Python substring containment over character lists: `needle in hay`. -/
def containsSeq (needle : List Char) : List Char → Bool
  | [] => needle.isEmpty
  | c :: rest => needle.isPrefixOf (c :: rest) || containsSeq needle rest

/-- Python `needle in hay` on strings. -/
def pyIn (needle hay : String) : Bool :=
  containsSeq needle.data hay.data

/-- Left-justify a string in a field of `w` characters, as the Python format
specifier `{0:<w}` does (strings longer than `w` are kept whole). -/
def ljust (s : String) (w : Nat) : String :=
  s ++ String.mk (List.replicate (w - s.length) ' ')

/-- The message line format of the prefs functions:
`"{{0:<{0}}}: {{1}}".format(label_width)` with `label_width = 19`, applied to a
key and a value string. -/
def fmtLine (key value : String) : String :=
  ljust key 19 ++ ": " ++ value

/-- The key normalisation `key.replace('-', '_')` used before looking a
property up on the VM object. -/
def underscore (s : String) : String :=
  mapChars (fun c => if c = '-' then '_' else c) s

/-- Modelled from the spec: the `Status` record of the missing `module_utils`
library, restricted to the fields the prefs reconcilers produce.  `retcode`
zero is Success and non-zero Failure, `pfx` is the annotation passed as
`prefix=` to `save_status` (the spec convention writes the final message as
the annotation followed by the message body), and `changes` is the ordered
`old`/`new` mapping attached by `run_post`. -/
structure StatusRecord : Type where
  retcode : Nat
  pfx : String
  message : String
  changes : List (String × PyVal × PyVal)
  deriving DecidableEq

/-- A record reports a change exactly when it carries a non-empty `changes`
mapping (spec: `changed` is true iff a corrective action was or would be
taken). -/
def StatusRecord.changed (r : StatusRecord) : Bool :=
  !r.changes.isEmpty

/-- A record is a failure when its return code is non-zero. -/
def StatusRecord.failed (r : StatusRecord) : Bool :=
  r.retcode != 0

/-- An external effect of the legacy prefs reconciler: the
`/usr/bin/qvm-prefs ... --set key value` command issued through `self.run`. -/
inductive MutEvent : Type
  | runCmd (key : String) (value : PyVal)
  deriving DecidableEq

/-- Attribute table of the managed VM object: `getattr(vm, key, MARKER)`
becomes a lookup returning the sentinel when the key is absent. -/
structure VM : Type where
  props : List (String × PyVal)

/-- One iteration of the set-mode loop of `_Prefs.__call__`
(src/_modules/qvm.py lines 645-668): normalise the key, read the current
value, emit an `Invalid key!` failure when the attribute is missing, a
`[SKIP] `-annotated no-op when current equals desired, and otherwise issue the
`qvm-prefs --set` command.  The command runner is modelled from the spec: the
missing `module_utils.run` suppresses execution under the dry-run flag while
returning a synthetic success, and `run_post` then attaches the old/new pair
to `changes`. -/
def prefsStep (vm : VM) (test : Bool) (kv : String × PyVal) :
    StatusRecord × List MutEvent :=
  let key := underscore kv.1
  match vm.props.lookup key with
  | none =>
      ({ retcode := 1, pfx := "", message := fmtLine key "Invalid key!",
         changes := [] }, [])
  | some cur =>
      if pyEq cur kv.2 then
        ({ retcode := 0, pfx := "[SKIP] ", message := fmtLine key (pyValStr cur),
           changes := [] }, [])
      else
        ({ retcode := 0, pfx := "", message := "",
           changes := [(key, cur, kv.2)] },
         if test then [] else [MutEvent.runCmd key kv.2])

/-- The set-mode loop of `_Prefs.__call__` over the whole keyword batch, in
dictionary insertion order, collecting the per-key status records and the
issued commands. -/
def prefsSet (vm : VM) (test : Bool) :
    List (String × PyVal) → List StatusRecord × List MutEvent
  | [] => ([], [])
  | kv :: rest =>
      let hd := prefsStep vm test kv
      let tl := prefsSet vm test rest
      (hd.1 :: tl.1, hd.2 ++ tl.2)

/-- The `property_map` of `prefs` in src/_modules/ext_module_qvm.py
(lines 829-832), applied after hyphen normalisation. -/
def propertyMap (s : String) : String :=
  if s = "last_backup" then "backup_timestamp"
  else if s = "dispvm_allowed" then "template_for_dispvms"
  else s

/-- The keys whose desired value `'none'` or `''` is normalised to Python
`None` (src/_modules/ext_module_qvm.py line 889). -/
def netvmLike (k : String) : Bool :=
  k = "netvm" || k = "guivm" || k = "audiovm" || k = "default_dispvm" ||
    k = "management_dispvm"

/-- Desired-value normalisation of the ext prefs loop: for the netvm-like keys
the strings `none` and the empty string mean Python `None`. -/
def extNormalize (key : String) (v : PyVal) : PyVal :=
  if netvmLike key && (v == .str "none" || v == .str "") then .pynone else v

/-- VM model for the ext prefs function: an attribute table plus the set of
property names for which `property_is_default` holds. -/
structure ExtVM : Type where
  props : List (String × PyVal)
  defaults : List String

/-- Current-value computation of the ext prefs loop for a scalar property
(src/_modules/ext_module_qvm.py lines 878-882): default-valued properties read
as the string `*default*`, otherwise `getattr(args.vm, dest, Null)`. -/
def extGetCurrent (vm : ExtVM) (dest : String) : PyVal :=
  if vm.defaults.contains dest then .str "*default*"
  else ((vm.props.lookup dest).getD .marker)

/-- A direct mutation of the VM record performed by the ext prefs loop:
`setattr(args.vm, dest, value_new)` or `delattr(args.vm, dest)`. -/
inductive ExtMut : Type
  | setProp (key : String) (value : PyVal)
  | delProp (key : String)
  deriving DecidableEq

/-- One iteration of the set-mode loop of `prefs` in
src/_modules/ext_module_qvm.py (lines 864-961) for a scalar property, i.e. a
key whose destination is neither `pcidevs` nor `pci_strictreset` (the device
branches manipulate PCI assignments and are outside this development).  The
loop body takes the dry-run flag in scope but, exactly as in the source, never
consults it: the `setattr`/`delattr` mutation is unconditional. -/
def extPrefsStep (vm : ExtVM) (test : Bool) (key : String) (vRaw : PyVal) :
    StatusRecord × List ExtMut :=
  let dest := propertyMap (underscore key)
  let cur := extGetCurrent vm dest
  let vNew := extNormalize key vRaw
  if pyEq cur vNew then
    ({ retcode := 0, pfx := "[SKIP] ", message := fmtLine dest (pyValStr cur),
       changes := [] }, [])
  else if vNew = .str "*default*" then
    ({ retcode := 0, pfx := "", message := "", changes := [(dest, cur, vNew)] },
     [ExtMut.delProp dest])
  else
    ({ retcode := 0, pfx := "", message := "", changes := [(dest, cur, vNew)] },
     [ExtMut.setProp dest vNew])

/-- The set-mode loop of the ext `prefs` over a batch of scalar properties, in
order, collecting status records and the attribute mutations actually
performed on the VM. -/
def extPrefsSet (vm : ExtVM) (test : Bool) :
    List (String × PyVal) → List StatusRecord × List ExtMut
  | [] => ([], [])
  | (k, v) :: rest =>
      let hd := extPrefsStep vm test k v
      let tl := extPrefsSet vm test rest
      (hd.1 :: tl.1, hd.2 ++ tl.2)

/-- Result dictionary returned by one state function called from the `vm`
sequencer (`vars(status)` of the underlying module call): the tri-state
`result` (`none` embeds the Python `None`), the `changes` mapping, and the
`comment`/`stdout`/`stderr` texts the sequencer may quote. -/
structure StepStatus : Type where
  result : Option Bool
  changes : List (String × String)
  comment : String
  stdout : String
  stderr : String

/-- One entry of the `actions` list of the `vm` state function
(src/_states/ext_state_qvm.py): either a plain action name or a one-entry
mapping from the name to an action value; `get_action` resolves a plain entry
to the value `fail` (lines 362-369). -/
inductive ActEntry : Type
  | plain (name : String)
  | keyed (name : String) (value : String)

/-- The `get_action` resolution of an entry into `(action, action_value)`. -/
def ActEntry.resolve : ActEntry → String × String
  | .plain n => (n, "fail")
  | .keyed n v => (n, v)

/-- One element of the option list attached to a requested action in the
state declaration: a positional argument or a one-entry keyword mapping. -/
inductive StepOpt : Type
  | pos (s : String)
  | kw (k v : String)

/-- Python `dict.update` with a single key: an existing key keeps its position
and gets the new value, a new key is appended. -/
def dictUpdate (d : List (String × String)) (k v : String) :
    List (String × String) :=
  if d.any (fun kv => kv.1 == k) then
    d.map (fun kv => if kv.1 == k then (k, v) else kv)
  else d ++ [(k, v)]

/-- The `parse_options` helper of `vm` (lines 413-424): split an option list
into positional varargs and an ordered keyword dictionary. -/
def parseOptions (opts : List StepOpt) : List String × List (String × String) :=
  opts.foldl
    (fun acc o =>
      match o with
      | .pos s => (acc.1 ++ [s], acc.2)
      | .kw k v => (acc.1, dictUpdate acc.2 k v))
    ([], [])

/-- Behaviour of the per-action state functions dispatched through
`globals()[action](name, *varargs, **keywords)`: an oracle from the action
name and its parsed arguments to the status dictionary it returns. -/
def Oracle : Type :=
  String → List String → List (String × String) → StepStatus

/-- Aggregate result dictionary of the `vm` sequencer, with `execs` as ghost
instrumentation recording, in order, the actions whose state function was
actually invoked (and hence could mutate external state). -/
structure SeqRet : Type where
  name : String
  result : Option Bool
  changes : List (String × List (String × String))
  comment : String
  execs : List String
  deriving DecidableEq

/-- Python truthiness of the tri-state aggregate result: only `True` is
truthy, `False` and `None` are falsy. -/
def truthyR : Option Bool → Bool
  | some true => true
  | _ => false

/-- The fixed section header `====== ['<action>'] ======` followed by a
newline, as formatted at lines 438-439 and 451-452. -/
def secHeader (a : String) : String :=
  "====== [\x27" ++ a ++ "\x27] ======\n"

/-- The comment recorded for a step skipped after a prior failure
(line 440). -/
def skipMsg : String :=
  "[SKIP] Skipping due to previous failure!"

/-- The text an executed step contributes after its header (lines 454-459):
the status comment if it strips non-empty, else stripped stdout, else
stripped stderr, else nothing. -/
def pickBody (st : StepStatus) : String :=
  if stripStr st.comment ≠ "" then st.comment
  else if stripStr st.stdout ≠ "" then stripStr st.stdout
  else if stripStr st.stderr ≠ "" then stripStr st.stderr
  else ""

/-- The loop body of `vm` for a single resolved action entry
(src/_states/ext_state_qvm.py lines 426-459): an action not named in the
keyword bag is ignored; otherwise the step executes only when the aggregate
result is still truthy or the run is in test mode, recording its status
(failure flips the aggregate result unless the action value contains `pass`),
and a step reached after a real failure only appends the header and the skip
comment. -/
def vmStep (kwargs : List (String × List StepOpt)) (test : Bool)
    (oracle : Oracle) (ret : SeqRet) (e : ActEntry) : SeqRet :=
  let a := e.resolve
  match kwargs.lookup a.1 with
  | none => ret
  | some opts =>
    if truthyR ret.result || test then
      let parsed := parseOptions opts
      let st := oracle a.1 parsed.1 parsed.2
      let result1 :=
        if !truthyR st.result && !pyIn "pass" (lowerStr a.2) then st.result
        else ret.result
      let changes1 :=
        if st.changes.isEmpty then ret.changes
        else ret.changes ++ [("qvm." ++ a.1, st.changes)]
      let lf := if ret.comment ≠ "" then "\n\n" else ""
      { ret with
        result := result1
        changes := changes1
        comment := ret.comment ++ lf ++ secHeader a.1 ++ pickBody st
        execs := ret.execs ++ [a.1] }
    else
      let lf := if ret.comment ≠ "" then "\n\n" else ""
      { ret with comment := ret.comment ++ lf ++ secHeader a.1 ++ skipMsg }

/-- The initial aggregate dictionary of `vm` (lines 393-396): result starts
as `True`, overwritten by `None` when the run is in test mode. -/
def initRet (name : String) (test : Bool) : SeqRet :=
  { name := name
    result := if test then none else some true
    changes := []
    comment := ""
    execs := [] }

/-- The action names of the resolved action list (the `_actions` list built
at lines 402-405). -/
def resolvedNames (acts : List ActEntry) : List String :=
  acts.map (fun e => e.resolve.1)

/-- The `vm` state function of src/_states/ext_state_qvm.py (lines 332-461),
after the reserved `actions` key has been popped: reject the first keyword
argument whose key is not a resolved action name, otherwise fold the loop
body over the action list. -/
def vmSeq (name : String) (acts : List ActEntry)
    (kwargs : List (String × List StepOpt)) (test : Bool)
    (oracle : Oracle) : SeqRet :=
  match kwargs.find? (fun kv => !(resolvedNames acts).contains kv.1) with
  | some kv =>
      { name := name
        result := some false
        changes := []
        comment := "Unknown action keyword: " ++ kv.1
        execs := [] }
  | none => acts.foldl (vmStep kwargs test oracle) (initRet name test)

/-- The duplicate-removal loop shared by `service`, `features` and `tags`
(src/_modules/ext_module_qvm.py lines 1305-1312, 1527-1534, 1675-1682):
`for value in action: if value not in seen: seen.add(value) else:
action.remove(value)`.  CPython iterates such a loop by index, so after the
in-place `remove` the cursor still advances; this function is that while-loop
with the cursor `i` explicit and the iteration count bounded by the initial
list length (the cursor passes the shrinking end of the list no later than
that). -/
def pyDedupGo : Nat → List String → List String → Nat →
    List String × List String
  | 0, seen, lst, _ => (seen, lst)
  | fuel + 1, seen, lst, i =>
    if h : i < lst.length then
      let v := lst[i]
      if seen.contains v then pyDedupGo fuel seen (lst.erase v) (i + 1)
      else pyDedupGo fuel (v :: seen) lst (i + 1)
    else (seen, lst)

/-- One pass of the duplicate-removal loop over a single list, starting from
a given `seen` set and cursor zero; returns the final `seen` set and the
mutated list. -/
def pyDedup (seen lst : List String) : List String × List String :=
  pyDedupGo lst.length seen lst 0

/-- The duplicate-removal loop of `service` over
`[args.default, args.disable, args.enable]` in that order, with one `seen`
set shared across the three lists. -/
def dedup3 (dft dis en : List String) :
    List String × List String × List String :=
  let d := pyDedup [] dft
  let i := pyDedup d.1 dis
  let e := pyDedup i.1 en
  (d.2, i.2, e.2)

/-- The duplicate-removal loop of `tags` over `[args.do_del, args.do_add]` in
that order (lines 1675-1682); returns the mutated delete and add lists. -/
def dedup2 (dels adds : List String) : List String × List String :=
  let d := pyDedup [] dels
  let a := pyDedup d.1 adds
  (d.2, a.2)

/-- The tag-store update of `tags` (lines 1684-1699): add every tag of the
add list, then discard every tag of the delete list.  The non-test branch
performs these calls on the live store and re-reads it; the test branch
computes the same set locally on a copy. -/
def tagsApply (S : Finset String) (A R : List String) : Finset String :=
  R.foldl (fun s t => s.erase t) (A.foldl (fun s t => insert t s) S)

/-- Status record emitted by the `tags` function; its `changes` values are
sorted tag lists keyed `old`/`new`. -/
structure TagStatus : Type where
  retcode : Nat
  pfx : String
  message : String
  changes : List (String × List String)
  deriving DecidableEq

/-- Result of one run of the `tags` reconciler: the resulting tag set and the
status record describing the run. -/
structure TagsResult : Type where
  newSet : Finset String
  status : TagStatus
  deriving DecidableEq

/-- Python `sorted` of a tag set. -/
def sortedTags (S : Finset String) : List String :=
  S.sort (· ≤ ·)

/-- The `tags` function of src/_modules/ext_module_qvm.py (lines 1666-1711)
for a requested add list and delete list: deduplicate the two lists with a
shared `seen` set (delete list first), apply adds then discards to the
current set, and report either the sorted old/new change pair or, when the
set is unchanged, a `[SKIP] `-annotated record listing the unchanged set
sorted and comma-joined. -/
def tagsOp (S : Finset String) (A R : List String) (test : Bool) :
    TagsResult :=
  let dd := dedup2 R A
  let newTags := tagsApply S dd.2 dd.1
  if newTags ≠ S then
    { newSet := newTags
      status :=
        { retcode := 0, pfx := "", message := ""
          changes := [("old", sortedTags S), ("new", sortedTags newTags)] } }
  else
    { newSet := newTags
      status :=
        { retcode := 0, pfx := "[SKIP] "
          message := "All requested tags already set: " ++
            String.intercalate "," (sortedTags S)
          changes := [] } }

/-- The resolved action names that are actually requested in the keyword bag,
in resolved order: these are exactly the steps the `vm` loop emits a comment
section for. -/
def requestedNames (acts : List ActEntry)
    (kwargs : List (String × List StepOpt)) : List String :=
  (acts.map (fun e => e.resolve.1)).filter (fun a => (kwargs.lookup a).isSome)

/-- The body text each requested step contributes after its section header,
mirroring the state threading of the `vm` loop: an executed step contributes
`pickBody` of its status, a step reached after a real failure contributes the
skip comment. -/
def vmBodies (kwargs : List (String × List StepOpt)) (test : Bool)
    (oracle : Oracle) : SeqRet → List ActEntry → List String
  | _, [] => []
  | ret, e :: rest =>
    match kwargs.lookup e.resolve.1 with
    | none => vmBodies kwargs test oracle ret rest
    | some opts =>
      let body :=
        if truthyR ret.result || test then
          pickBody (oracle e.resolve.1 (parseOptions opts).1
            (parseOptions opts).2)
        else skipMsg
      body :: vmBodies kwargs test oracle (vmStep kwargs test oracle ret e)
        rest

/-- Comment accumulation of the `vm` loop: append each section to the
accumulator, preceded by a blank line exactly when the accumulator is already
non-empty. -/
def joinAcc : String → List String → String
  | c, [] => c
  | c, s :: rest => joinAcc (c ++ (if c = "" then "" else "\n\n") ++ s) rest

/-- Concatenation of a list of strings. -/
def concatAll : List String → String
  | [] => ""
  | s :: rest => s ++ concatAll rest

/-- Concatenation of a list of sections, each preceded by a blank line. -/
def tailJoin (l : List String) : String :=
  concatAll (l.map (fun s => "\n\n" ++ s))

/-- A list of sections joined with blank-line separators. -/
def sepJoin : List String → String
  | [] => ""
  | [s] => s
  | s :: t :: rest => s ++ "\n\n" ++ sepJoin (t :: rest)

/-- The comment section a step skipped after a prior failure contributes,
including its preceding blank line. -/
def skipSection (a : String) : String :=
  "\n\n" ++ secHeader a ++ skipMsg

/-- A state-function behaviour that always succeeds silently, used to
instantiate the sequencer theorems on concrete runs. -/
def trivOracle : Oracle :=
  fun _ _ _ => { result := some true, changes := [], comment := "",
                 stdout := "", stderr := "" }

/-- A state-function behaviour that always fails silently, used to
instantiate the sequencer theorems on concrete runs. -/
def failOracle : Oracle :=
  fun _ _ _ => { result := some false, changes := [], comment := "",
                 stdout := "", stderr := "" }

theorem str_append_empty (s : String) : s ++ "" = s := by
  apply String.ext
  simp [String.data_append]

theorem str_empty_append (s : String) : "" ++ s = s := by
  apply String.ext
  simp [String.data_append]

theorem append_ne_empty_left {s : String} (t : String) (h : s ≠ "") :
    s ++ t ≠ "" := by
  intro hc
  apply h
  apply String.ext
  have hd := congrArg String.data hc
  rw [String.data_append] at hd
  rcases List.append_eq_nil.mp hd with ⟨h1, _⟩
  simpa [String.ext_iff] using h1

/-- C1: for a scalar property of the ext `prefs` set loop, when the current
value equals the (normalised) desired value, the step emits the formatted
message annotated `[SKIP] `, attaches no `changes` entry (so `changed` is
false), and performs no attribute mutation on the VM. -/
theorem c1_prefs_skip (vm : ExtVM) (test : Bool) (key : String) (vRaw : PyVal)
    (h : pyEq (extGetCurrent vm (propertyMap (underscore key)))
      (extNormalize key vRaw) = true) :
    extPrefsStep vm test key vRaw =
      ({ retcode := 0
         pfx := "[SKIP] "
         message := fmtLine (propertyMap (underscore key))
           (pyValStr (extGetCurrent vm (propertyMap (underscore key))))
         changes := [] }, []) ∧
    (extPrefsStep vm test key vRaw).1.changed = false := by
  refine ⟨?_, ?_⟩ <;> simp [extPrefsStep, h, StatusRecord.changed]

theorem c1_prefs_skip_witness :
    pyEq (extGetCurrent ⟨[("memory", .int 400)], []⟩
        (propertyMap (underscore "memory")))
      (extNormalize "memory" (.int 400)) = true ∧
    (extPrefsStep ⟨[("memory", .int 400)], []⟩ true "memory" (.int 400) =
      ({ retcode := 0
         pfx := "[SKIP] "
         message := fmtLine (propertyMap (underscore "memory"))
           (pyValStr (extGetCurrent ⟨[("memory", .int 400)], []⟩
             (propertyMap (underscore "memory"))))
         changes := [] }, []) ∧
    (extPrefsStep ⟨[("memory", .int 400)], []⟩ true "memory"
      (.int 400)).1.changed = false) :=
  ⟨by decide, c1_prefs_skip _ _ _ _ (by decide)⟩

/-- C5: in the set loop of `_Prefs.__call__`, a key that is not an attribute
of the VM yields a failure record (retcode 1) whose message is the formatted
`Invalid key!` line for that key, issues no command for that key, and leaves
the processing of the remaining keys of the batch unchanged (the embedding is
a total function, so no exception escapes). -/
theorem c5_invalid_key (vm : VM) (test : Bool) (key : String) (v : PyVal)
    (rest : List (String × PyVal))
    (h : vm.props.lookup (underscore key) = none) :
    prefsSet vm test ((key, v) :: rest) =
      ({ retcode := 1, pfx := "",
         message := fmtLine (underscore key) "Invalid key!",
         changes := [] } :: (prefsSet vm test rest).1,
       (prefsSet vm test rest).2) ∧
    (StatusRecord.failed
      { retcode := 1, pfx := "",
        message := fmtLine (underscore key) "Invalid key!",
        changes := [] }) = true := by
  refine ⟨?_, by simp [StatusRecord.failed]⟩
  simp [prefsSet, prefsStep, h]

theorem c5_invalid_key_witness :
    (VM.mk [("memory", .int 400)]).props.lookup (underscore "hdtype") =
      none ∧
    (prefsSet ⟨[("memory", .int 400)]⟩ false
        [("hdtype", .str "x"), ("memory", .int 600)] =
      ({ retcode := 1, pfx := "",
         message := fmtLine (underscore "hdtype") "Invalid key!",
         changes := [] } ::
         (prefsSet ⟨[("memory", .int 400)]⟩ false [("memory", .int 600)]).1,
       (prefsSet ⟨[("memory", .int 400)]⟩ false
         [("memory", .int 600)]).2) ∧
    (StatusRecord.failed
      { retcode := 1, pfx := "",
        message := fmtLine (underscore "hdtype") "Invalid key!",
        changes := [] }) = true) :=
  ⟨by decide, c5_invalid_key _ _ _ _ _ (by decide)⟩

/-- C2: the set loop of the ext `prefs` mutates the VM even under the dry-run
flag: with current `memory = 400`, desired `memory = 600` and test mode on,
the run performs `setattr(vm, "memory", 600)`.  The source comment announces
that the command will not execute in test mode and the sibling operations all
guard their mutation with `if not test`, but this loop never consults the
flag, so the claimed dry-run non-mutation fails on the prefs operation. -/
theorem c2_test_mode_mutates :
    (extPrefsSet ⟨[("memory", .int 400)], []⟩ true
      [("memory", .int 600)]).2 = [ExtMut.setProp "memory" (.int 600)] := by
  decide

/-- C7: the duplicate-removal loop of `service` mutates each list while
iterating over it by index, so duplicates can survive: on
`enable = [a, a, a]` it returns `[a, a]`, which still names `a` twice,
contradicting the announced removal of duplicates. -/
theorem c7_dedup_leaves_duplicate :
    dedup3 [] [] ["a", "a", "a"] = ([], [], ["a", "a"]) ∧
    ¬ (dedup3 [] [] ["a", "a", "a"]).2.2.Nodup := by
  decide

theorem vmStep_not_requested (kwargs : List (String × List StepOpt))
    (test : Bool) (oracle : Oracle) (ret : SeqRet) (e : ActEntry)
    (h : kwargs.lookup e.resolve.1 = none) :
    vmStep kwargs test oracle ret e = ret := by
  simp [vmStep, h]

theorem foldl_vmStep_nil (test : Bool) (oracle : Oracle) :
    ∀ (acts : List ActEntry) (ret : SeqRet),
      acts.foldl (vmStep [] test oracle) ret = ret := by
  intro acts
  induction acts with
  | nil => intro ret; rfl
  | cons e rest ih =>
      intro ret
      rw [List.foldl_cons, vmStep_not_requested [] test oracle ret e rfl]
      exact ih ret

/-- C8: the aggregate result of the `vm` sequencer starts as `True` in a
normal run and as `None` (unknown) in a test-mode run — a run requesting no
step returns exactly the initial `{name, result, changes, comment}`
dictionary — and the result field is the tri-state `Option Bool`, whose
`none` is distinct from both `some true` and `some false`. -/
theorem c8_initial_result (name : String) (acts : List ActEntry)
    (test : Bool) (oracle : Oracle) :
    vmSeq name acts [] test oracle = initRet name test ∧
    (initRet name test).result = (if test then none else some true) ∧
    (initRet name test).name = name ∧
    (initRet name test).changes = [] ∧
    (initRet name test).comment = "" ∧
    (none : Option Bool) ≠ some true ∧
    (none : Option Bool) ≠ some false := by
  refine ⟨?_, rfl, rfl, rfl, rfl, by simp, by simp⟩
  show acts.foldl (vmStep [] test oracle) (initRet name test) = _
  exact foldl_vmStep_nil test oracle acts (initRet name test)

/-- C10: when some keyword argument of the `vm` sequencer (the reserved
`actions` key having been popped beforehand) is not a resolved action name,
the run executes no step at all — even in test mode — and returns result
`False`, empty changes, and the comment `Unknown action keyword: <key>` for
the first such key. -/
theorem c10_unknown_keyword (name : String) (acts : List ActEntry)
    (kwargs : List (String × List StepOpt)) (test : Bool) (oracle : Oracle)
    (k : String) (opts : List StepOpt)
    (h : kwargs.find? (fun kv => !(resolvedNames acts).contains kv.1) =
      some (k, opts)) :
    vmSeq name acts kwargs test oracle =
      { name := name, result := some false, changes := []
        comment := "Unknown action keyword: " ++ k, execs := [] } := by
  unfold vmSeq
  rw [h]

theorem c10_unknown_keyword_witness :
    ([("bogus", ([] : List StepOpt))].find?
      (fun kv => !(resolvedNames [ActEntry.plain "start"]).contains kv.1) =
      some ("bogus", [])) ∧
    vmSeq "vm1" [ActEntry.plain "start"] [("bogus", [])] true trivOracle =
      { name := "vm1", result := some false, changes := []
        comment := "Unknown action keyword: " ++ "bogus", execs := [] } :=
  ⟨rfl, c10_unknown_keyword "vm1" [ActEntry.plain "start"] [("bogus", [])]
    true trivOracle "bogus" [] rfl⟩

/-- C6: in the `vm` loop, when an executed step reports result `False`, the
aggregate result is left unchanged when the action value of the step contains
`pass` (failure tolerance), and becomes `False` for every other action
value. -/
theorem c6_failure_tolerance (kwargs : List (String × List StepOpt))
    (test : Bool) (oracle : Oracle) (ret : SeqRet) (e : ActEntry)
    (opts : List StepOpt)
    (hreq : kwargs.lookup e.resolve.1 = some opts)
    (hrun : (truthyR ret.result || test) = true)
    (hfail : (oracle e.resolve.1 (parseOptions opts).1
      (parseOptions opts).2).result = some false) :
    (pyIn "pass" (lowerStr e.resolve.2) = true →
      (vmStep kwargs test oracle ret e).result = ret.result) ∧
    (pyIn "pass" (lowerStr e.resolve.2) = false →
      (vmStep kwargs test oracle ret e).result = some false) := by
  have hcond : truthyR ret.result = true ∨ test = true := by
    simpa using hrun
  have hfalse : truthyR (some false) = false := rfl
  constructor <;> intro hp <;>
    simp [vmStep, hreq, hfail, hp, hcond, hfalse]

theorem c6_failure_tolerance_witness :
    ([("start", ([] : List StepOpt))].lookup
        (ActEntry.keyed "start" "pass").resolve.1 = some []) ∧
    (truthyR (initRet "vm1" false).result || false) = true ∧
    (failOracle (ActEntry.keyed "start" "pass").resolve.1
      (parseOptions []).1 (parseOptions []).2).result = some false ∧
    ((pyIn "pass" (lowerStr (ActEntry.keyed "start" "pass").resolve.2) =
        true →
      (vmStep [("start", [])] false failOracle (initRet "vm1" false)
        (ActEntry.keyed "start" "pass")).result =
        (initRet "vm1" false).result) ∧
    (pyIn "pass" (lowerStr (ActEntry.keyed "start" "pass").resolve.2) =
        false →
      (vmStep [("start", [])] false failOracle (initRet "vm1" false)
        (ActEntry.keyed "start" "pass")).result = some false)) :=
  ⟨rfl, rfl, rfl,
    c6_failure_tolerance [("start", [])] false failOracle
      (initRet "vm1" false) (ActEntry.keyed "start" "pass") [] rfl rfl rfl⟩

/-- C4: once the aggregate result of a non-test `vm` run is `False`, the rest
of the loop executes no state function at all (`execs` and `changes` stay
put), the aggregate result stays `False`, and every remaining requested step
still contributes its delimited section carrying the
`[SKIP] Skipping due to previous failure!` comment, in order. -/
theorem c4_failure_short_circuit (kwargs : List (String × List StepOpt))
    (oracle : Oracle) (rest : List ActEntry) (ret : SeqRet)
    (hres : ret.result = some false) (hcom : ret.comment ≠ "") :
    (rest.foldl (vmStep kwargs false oracle) ret).execs = ret.execs ∧
    (rest.foldl (vmStep kwargs false oracle) ret).result = some false ∧
    (rest.foldl (vmStep kwargs false oracle) ret).changes = ret.changes ∧
    (rest.foldl (vmStep kwargs false oracle) ret).comment =
      ret.comment ++ concatAll (rest.filterMap (fun e =>
        if (kwargs.lookup e.resolve.1).isSome then
          some (skipSection e.resolve.1)
        else none)) := by
  induction rest generalizing ret with
  | nil =>
      refine ⟨rfl, hres, rfl, ?_⟩
      simp [concatAll, str_append_empty]
  | cons e rest ih =>
      rw [List.foldl_cons]
      cases hlook : kwargs.lookup e.resolve.1 with
      | none =>
          rw [vmStep_not_requested kwargs false oracle ret e hlook]
          rcases ih ret hres hcom with ⟨h1, h2, h3, h4⟩
          refine ⟨h1, h2, h3, ?_⟩
          rw [h4, List.filterMap_cons, hlook]
          simp
      | some opts =>
          have hstep : vmStep kwargs false oracle ret e =
              { ret with comment :=
                  (ret.comment ++ "\n\n" ++ secHeader e.resolve.1 ++
                    skipMsg) } := by
            simp [vmStep, hlook, hres, truthyR, hcom]
          rw [hstep]
          have hcom2 : (ret.comment ++ "\n\n" ++ secHeader e.resolve.1 ++
              skipMsg) ≠ "" := by
            apply append_ne_empty_left
            apply append_ne_empty_left
            exact append_ne_empty_left _ hcom
          rcases ih { ret with comment :=
              (ret.comment ++ "\n\n" ++ secHeader e.resolve.1 ++ skipMsg) }
            hres hcom2 with ⟨h1, h2, h3, h4⟩
          refine ⟨h1, h2, h3, ?_⟩
          rw [h4, List.filterMap_cons, hlook]
          simp [skipSection, concatAll, String.append_assoc]

theorem c4_failure_short_circuit_witness :
    (SeqRet.mk "vm1" (some false) [] "previous section" []).result =
      some false ∧
    (SeqRet.mk "vm1" (some false) [] "previous section" []).comment ≠ "" ∧
    (([ActEntry.plain "start"].foldl
        (vmStep [("start", [])] false trivOracle)
        (SeqRet.mk "vm1" (some false) [] "previous section" [])).execs =
      (SeqRet.mk "vm1" (some false) [] "previous section" []).execs ∧
    ([ActEntry.plain "start"].foldl
        (vmStep [("start", [])] false trivOracle)
        (SeqRet.mk "vm1" (some false) [] "previous section" [])).result =
      some false ∧
    ([ActEntry.plain "start"].foldl
        (vmStep [("start", [])] false trivOracle)
        (SeqRet.mk "vm1" (some false) [] "previous section" [])).changes =
      (SeqRet.mk "vm1" (some false) [] "previous section" []).changes ∧
    ([ActEntry.plain "start"].foldl
        (vmStep [("start", [])] false trivOracle)
        (SeqRet.mk "vm1" (some false) [] "previous section" [])).comment =
      (SeqRet.mk "vm1" (some false) [] "previous section" []).comment ++
        concatAll ([ActEntry.plain "start"].filterMap (fun e =>
          if (List.lookup e.resolve.1
              [("start", ([] : List StepOpt))]).isSome then
            some (skipSection e.resolve.1)
          else none))) :=
  ⟨rfl, by decide,
    c4_failure_short_circuit [("start", [])] trivOracle
      [ActEntry.plain "start"]
      (SeqRet.mk "vm1" (some false) [] "previous section" [])
      rfl (by decide)⟩

theorem secHeader_ne_empty (a : String) : secHeader a ≠ "" := by
  unfold secHeader
  apply append_ne_empty_left
  apply append_ne_empty_left
  decide

theorem joinAcc_of_ne_empty :
    ∀ (l : List String) (c : String), c ≠ "" →
      joinAcc c l = c ++ tailJoin l := by
  intro l
  induction l with
  | nil =>
      intro c _
      simp [joinAcc, tailJoin, concatAll, str_append_empty]
  | cons s rest ih =>
      intro c hc
      rw [joinAcc, if_neg hc, ih (c ++ "\n\n" ++ s)
        (append_ne_empty_left _ (append_ne_empty_left _ hc))]
      simp [tailJoin, concatAll, String.append_assoc]

theorem sepJoin_cons :
    ∀ (rest : List String) (s : String),
      sepJoin (s :: rest) = s ++ tailJoin rest := by
  intro rest
  induction rest with
  | nil =>
      intro s
      simp [sepJoin, tailJoin, concatAll, str_append_empty]
  | cons t r ih =>
      intro s
      show s ++ "\n\n" ++ sepJoin (t :: r) = _
      rw [ih t]
      simp [tailJoin, concatAll, String.append_assoc]

theorem joinAcc_empty_eq_sepJoin (s : String) (rest : List String)
    (hs : s ≠ "") : joinAcc "" (s :: rest) = sepJoin (s :: rest) := by
  have h0 : ("" : String) ++ "" ++ s = s := by
    rw [str_empty_append, str_empty_append]
  rw [joinAcc, if_pos rfl, h0, joinAcc_of_ne_empty rest s hs,
    sepJoin_cons rest s]

theorem vmLoop_comment (kwargs : List (String × List StepOpt)) (test : Bool)
    (oracle : Oracle) :
    ∀ (acts : List ActEntry) (ret : SeqRet),
      (acts.foldl (vmStep kwargs test oracle) ret).comment =
        joinAcc ret.comment (List.zipWith (fun a b => secHeader a ++ b)
          (requestedNames acts kwargs)
          (vmBodies kwargs test oracle ret acts)) := by
  intro acts
  induction acts with
  | nil =>
      intro ret
      simp [requestedNames, vmBodies, joinAcc]
  | cons e rest ih =>
      intro ret
      rw [List.foldl_cons]
      cases hlook : kwargs.lookup e.resolve.1 with
      | none =>
          rw [vmStep_not_requested kwargs test oracle ret e hlook]
          have hb : vmBodies kwargs test oracle ret (e :: rest) =
              vmBodies kwargs test oracle ret rest := by
            simp [vmBodies, hlook]
          have hr : requestedNames (e :: rest) kwargs =
              requestedNames rest kwargs := by
            simp [requestedNames, List.filter_cons, hlook]
          rw [hb, hr]
          exact ih ret
      | some opts =>
          have hr : requestedNames (e :: rest) kwargs =
              e.resolve.1 :: requestedNames rest kwargs := by
            simp [requestedNames, List.filter_cons, hlook]
          by_cases hrun : (truthyR ret.result || test) = true
          · have hb : vmBodies kwargs test oracle ret (e :: rest) =
                pickBody (oracle e.resolve.1 (parseOptions opts).1
                  (parseOptions opts).2) ::
                  vmBodies kwargs test oracle
                    (vmStep kwargs test oracle ret e) rest := by
              simp [vmBodies, hlook, hrun]
            rw [hr, hb, List.zipWith_cons_cons, joinAcc,
              ih (vmStep kwargs test oracle ret e)]
            congr 1
            by_cases hc : ret.comment = "" <;>
              simp [vmStep, hlook, hrun, hc, String.append_assoc]
          · have hb : vmBodies kwargs test oracle ret (e :: rest) =
                skipMsg :: vmBodies kwargs test oracle
                  (vmStep kwargs test oracle ret e) rest := by
              simp [vmBodies, hlook, hrun]
            rw [hr, hb, List.zipWith_cons_cons, joinAcc,
              ih (vmStep kwargs test oracle ret e)]
            congr 1
            by_cases hc : ret.comment = "" <;>
              simp [vmStep, hlook, hrun, hc, String.append_assoc]

theorem vmBodies_length (kwargs : List (String × List StepOpt)) (test : Bool)
    (oracle : Oracle) :
    ∀ (acts : List ActEntry) (ret : SeqRet),
      (vmBodies kwargs test oracle ret acts).length =
        (requestedNames acts kwargs).length := by
  intro acts
  induction acts with
  | nil => intro ret; simp [vmBodies, requestedNames]
  | cons e rest ih =>
      intro ret
      cases hlook : kwargs.lookup e.resolve.1 with
      | none =>
          have hr : requestedNames (e :: rest) kwargs =
              requestedNames rest kwargs := by
            simp [requestedNames, List.filter_cons, hlook]
          have hb : vmBodies kwargs test oracle ret (e :: rest) =
              vmBodies kwargs test oracle ret rest := by
            simp [vmBodies, hlook]
          rw [hb, hr]
          exact ih ret
      | some opts =>
          have hr : requestedNames (e :: rest) kwargs =
              e.resolve.1 :: requestedNames rest kwargs := by
            simp [requestedNames, List.filter_cons, hlook]
          rw [hr]
          by_cases hrun : (truthyR ret.result || test) = true <;>
            · have hb : vmBodies kwargs test oracle ret (e :: rest) =
                  (if (truthyR ret.result || test) = true then
                    pickBody (oracle e.resolve.1 (parseOptions opts).1
                      (parseOptions opts).2)
                  else skipMsg) ::
                    vmBodies kwargs test oracle
                      (vmStep kwargs test oracle ret e) rest := by
                simp [vmBodies, hlook]
              rw [hb]
              simp [ih (vmStep kwargs test oracle ret e)]

/-- C9: in a `vm` run whose keyword bag only names resolved actions, the
aggregate comment is exactly the blank-line-separated join of one section per
requested step, in resolved order: each section opens with the fixed
`====== [<action>] ======` header and carries either the executed step output
or the skip comment, and there are exactly as many sections as requested
steps — also when execution stopped partway, since skipped steps still
contribute their section. -/
theorem c9_comment_sections (name : String) (acts : List ActEntry)
    (kwargs : List (String × List StepOpt)) (test : Bool) (oracle : Oracle)
    (hknown : kwargs.find?
      (fun kv => !(resolvedNames acts).contains kv.1) = none) :
    (vmBodies kwargs test oracle (initRet name test) acts).length =
      (requestedNames acts kwargs).length ∧
    (vmSeq name acts kwargs test oracle).comment =
      sepJoin (List.zipWith (fun a b => secHeader a ++ b)
        (requestedNames acts kwargs)
        (vmBodies kwargs test oracle (initRet name test) acts)) := by
  refine ⟨vmBodies_length kwargs test oracle acts (initRet name test), ?_⟩
  have hseq : vmSeq name acts kwargs test oracle =
      acts.foldl (vmStep kwargs test oracle) (initRet name test) := by
    unfold vmSeq
    rw [hknown]
  rw [hseq, vmLoop_comment kwargs test oracle acts (initRet name test)]
  rcases hr : requestedNames acts kwargs with _ | ⟨a, names⟩
  · simp [joinAcc, sepJoin, initRet]
  · rcases hb : vmBodies kwargs test oracle (initRet name test) acts with
      _ | ⟨b, bodies⟩
    · simp [joinAcc, sepJoin, initRet]
    · rw [List.zipWith_cons_cons]
      show joinAcc "" _ = _
      exact joinAcc_empty_eq_sepJoin (secHeader a ++ b) _
        (append_ne_empty_left b (secHeader_ne_empty a))

theorem c9_comment_sections_witness :
    ([("start", ([] : List StepOpt))].find?
      (fun kv =>
        !(resolvedNames [ActEntry.plain "exists",
          ActEntry.plain "start"]).contains kv.1) = none) ∧
    ((vmBodies [("start", [])] false trivOracle (initRet "vm1" false)
        [ActEntry.plain "exists", ActEntry.plain "start"]).length =
      (requestedNames [ActEntry.plain "exists", ActEntry.plain "start"]
        [("start", [])]).length ∧
    (vmSeq "vm1" [ActEntry.plain "exists", ActEntry.plain "start"]
        [("start", [])] false trivOracle).comment =
      sepJoin (List.zipWith (fun a b => secHeader a ++ b)
        (requestedNames [ActEntry.plain "exists", ActEntry.plain "start"]
          [("start", [])])
        (vmBodies [("start", [])] false trivOracle (initRet "vm1" false)
          [ActEntry.plain "exists", ActEntry.plain "start"]))) :=
  ⟨rfl, c9_comment_sections "vm1"
    [ActEntry.plain "exists", ActEntry.plain "start"] [("start", [])]
    false trivOracle rfl⟩

theorem idx_mem_take {α : Type} {l : List α} {j n : Nat} (h : j < l.length)
    (hj : j < n) : l[j] ∈ l.take n := by
  have hlen : j < (l.take n).length := by
    simp only [List.length_take]
    exact lt_min hj h
  have hgt : (l.take n)[j] = l[j] := List.getElem_take l
  rw [← hgt]
  exact List.getElem_mem hlen

theorem mem_take_mono {α : Type} {l : List α} {m n : Nat} {v : α}
    (hmn : m ≤ n) (hv : v ∈ l.take m) : v ∈ l.take n := by
  have h2 : List.take m (List.take n l) = List.take m l := by
    rw [List.take_take, inf_eq_left.mpr hmn]
  rw [← h2] at hv
  exact List.take_subset _ _ hv

theorem mem_take_erase_succ {l : List String} {i : Nat} {w : String}
    (h : i < l.length) (hw : w ∈ l.take i) :
    w ∈ (l.erase l[i]).take (i + 1) := by
  have humem : l[i] ∈ l := List.getElem_mem h
  obtain ⟨l₁, l₂, hul₁, hdec, herase⟩ := List.exists_erase_eq humem
  rw [herase]
  rw [hdec, List.take_append_eq_append_take] at hw
  rw [List.take_append_eq_append_take]
  by_cases hn : i ≤ l₁.length
  · have hz : i - l₁.length = 0 := Nat.sub_eq_zero_of_le hn
    rw [hz] at hw
    simp only [List.take_zero, List.append_nil] at hw
    exact List.mem_append_left _ (mem_take_mono (Nat.le_succ i) hw)
  · push_neg at hn
    have hl1 : l₁.length ≤ i := le_of_lt hn
    rw [List.take_of_length_le hl1] at hw
    rw [List.take_of_length_le (le_trans hl1 (Nat.le_succ i))]
    rcases List.mem_append.mp hw with hwl | hwr
    · exact List.mem_append_left _ hwl
    · apply List.mem_append_right
      obtain ⟨k, hk⟩ := Nat.exists_eq_add_of_lt hn
      have hik : i - l₁.length = k + 1 := by omega
      rw [hik, List.take_succ_cons] at hwr
      rcases List.mem_cons.mp hwr with hwu | hwtk
      · have hq : l[i]? = some w := by
          rw [List.getElem?_eq_getElem h, hwu]
        rw [hdec, List.getElem?_append_right hl1, hik,
          List.getElem?_cons_succ] at hq
        obtain ⟨hkl, hkeq⟩ := List.getElem?_eq_some_iff.mp hq
        have hik2 : i + 1 - l₁.length = k + 2 := by omega
        rw [hik2, ← hkeq]
        exact idx_mem_take hkl (by omega)
      · exact mem_take_mono (by omega) hwtk

theorem dedupGo_sub :
    ∀ (fuel : Nat) (seen lst : List String) (i : Nat) (v : String),
      v ∈ (pyDedupGo fuel seen lst i).2 → v ∈ lst := by
  intro fuel
  induction fuel with
  | zero => intro seen lst i v hv; simpa [pyDedupGo] using hv
  | succ fuel ih =>
      intro seen lst i v hv
      rw [pyDedupGo] at hv
      by_cases h : i < lst.length
      · rw [dif_pos h] at hv
        simp only [] at hv
        by_cases hc : seen.contains lst[i] = true
        · rw [if_pos hc] at hv
          exact List.mem_of_mem_erase (ih seen (lst.erase lst[i]) (i + 1) v hv)
        · rw [if_neg hc] at hv
          exact ih (lst[i] :: seen) lst (i + 1) v hv
      · rw [dif_neg h] at hv
        exact hv

theorem dedupGo_seen_sub :
    ∀ (fuel : Nat) (seen lst : List String) (i : Nat) (v : String),
      v ∈ (pyDedupGo fuel seen lst i).1 → v ∈ seen ∨ v ∈ lst := by
  intro fuel
  induction fuel with
  | zero => intro seen lst i v hv; exact Or.inl (by simpa [pyDedupGo] using hv)
  | succ fuel ih =>
      intro seen lst i v hv
      rw [pyDedupGo] at hv
      by_cases h : i < lst.length
      · rw [dif_pos h] at hv
        simp only [] at hv
        by_cases hc : seen.contains lst[i] = true
        · rw [if_pos hc] at hv
          rcases ih seen (lst.erase lst[i]) (i + 1) v hv with hs | hl
          · exact Or.inl hs
          · exact Or.inr (List.mem_of_mem_erase hl)
        · rw [if_neg hc] at hv
          rcases ih (lst[i] :: seen) lst (i + 1) v hv with hs | hl
          · rcases List.mem_cons.mp hs with hvu | hvs
            · exact Or.inr (hvu ▸ List.getElem_mem h)
            · exact Or.inl hvs
          · exact Or.inr hl
      · rw [dif_neg h] at hv
        exact Or.inl hv

theorem dedupGo_mem :
    ∀ (fuel : Nat) (seen lst : List String) (i : Nat),
      (∀ w, w ∈ lst → w ∈ seen → w ∈ lst.take i) →
      ∀ v, v ∈ lst → v ∈ (pyDedupGo fuel seen lst i).2 := by
  intro fuel
  induction fuel with
  | zero => intro seen lst i _ v hv; simpa [pyDedupGo] using hv
  | succ fuel ih =>
      intro seen lst i hinv v hv
      rw [pyDedupGo]
      by_cases h : i < lst.length
      · rw [dif_pos h]
        simp only []
        by_cases hc : seen.contains lst[i] = true
        · rw [if_pos hc]
          have hmemu : lst[i] ∈ seen := by simpa using hc
          refine ih seen (lst.erase lst[i]) (i + 1) ?_ v ?_
          · intro w hwe hws
            exact mem_take_erase_succ h
              (hinv w (List.mem_of_mem_erase hwe) hws)
          · by_cases hvu : v = lst[i]
            · subst hvu
              exact List.take_subset _ _
                (mem_take_erase_succ h (hinv lst[i] hv hmemu))
            · exact (List.mem_erase_of_ne hvu).mpr hv
        · rw [if_neg hc]
          refine ih (lst[i] :: seen) lst (i + 1) ?_ v hv
          intro w hwl hws
          rcases List.mem_cons.mp hws with hwu | hwseen
          · subst hwu
            exact idx_mem_take h (Nat.lt_succ_self i)
          · exact mem_take_mono (Nat.le_succ i) (hinv w hwl hwseen)
      · rw [dif_neg h]
        exact hv

theorem pyDedup_mem_iff (seen lst : List String)
    (hdisj : ∀ v ∈ lst, v ∉ seen) (v : String) :
    v ∈ (pyDedup seen lst).2 ↔ v ∈ lst := by
  constructor
  · exact dedupGo_sub lst.length seen lst 0 v
  · intro hv
    refine dedupGo_mem lst.length seen lst 0 ?_ v hv
    intro w hw hws
    exact absurd hws (hdisj w hw)

theorem pyDedup_seen_mem (seen lst : List String) (v : String)
    (hv : v ∈ (pyDedup seen lst).1) : v ∈ seen ∨ v ∈ lst :=
  dedupGo_seen_sub lst.length seen lst 0 v hv

theorem mem_foldl_insert (A : List String) :
    ∀ (S : Finset String) (x : String),
      x ∈ A.foldl (fun s t => insert t s) S ↔ x ∈ S ∨ x ∈ A := by
  induction A with
  | nil => intro S x; simp
  | cons a A ih =>
      intro S x
      rw [List.foldl_cons, ih (insert a S) x]
      simp only [Finset.mem_insert, List.mem_cons]
      tauto

theorem mem_foldl_erase (R : List String) :
    ∀ (S : Finset String) (x : String),
      x ∈ R.foldl (fun s t => s.erase t) S ↔ x ∈ S ∧ x ∉ R := by
  induction R with
  | nil => intro S x; simp
  | cons r R ih =>
      intro S x
      rw [List.foldl_cons, ih (S.erase r) x]
      simp only [Finset.mem_erase, List.mem_cons]
      tauto

theorem tagsApply_eq (S : Finset String) (A R : List String) :
    tagsApply S A R = (S ∪ A.toFinset) \ R.toFinset := by
  apply Finset.ext
  intro x
  rw [tagsApply, mem_foldl_erase, mem_foldl_insert]
  simp only [Finset.mem_sdiff, Finset.mem_union, List.mem_toFinset]

theorem dedup2_del_mem (dels adds : List String) (v : String) :
    v ∈ (dedup2 dels adds).1 ↔ v ∈ dels := by
  unfold dedup2
  exact pyDedup_mem_iff [] dels (by simp) v

theorem dedup2_add_mem (dels adds : List String)
    (hd : ∀ a ∈ adds, a ∉ dels) (v : String) :
    v ∈ (dedup2 dels adds).2 ↔ v ∈ adds := by
  unfold dedup2
  apply pyDedup_mem_iff
  intro a ha hseen
  rcases pyDedup_seen_mem [] dels a hseen with hnil | hdel
  · simp at hnil
  · exact hd a ha hdel

theorem tagsOp_newSet (T : Finset String) (A R : List String) (tb : Bool)
    (hd : ∀ a ∈ A, a ∉ R) :
    (tagsOp T A R tb).newSet = (T ∪ A.toFinset) \ R.toFinset := by
  have hset : tagsApply T (dedup2 R A).2 (dedup2 R A).1 =
      (T ∪ A.toFinset) \ R.toFinset := by
    rw [tagsApply_eq]
    have ha : (dedup2 R A).2.toFinset = A.toFinset := by
      apply Finset.ext
      intro x
      simp only [List.mem_toFinset]
      exact dedup2_add_mem R A hd x
    have hr : (dedup2 R A).1.toFinset = R.toFinset := by
      apply Finset.ext
      intro x
      simp only [List.mem_toFinset]
      exact dedup2_del_mem R A x
    rw [ha, hr]
  unfold tagsOp
  by_cases hne : tagsApply T (dedup2 R A).2 (dedup2 R A).1 ≠ T
  · rw [if_pos hne]
    exact hset
  · rw [if_neg hne]
    exact hset

theorem tagsOp_status_skip (T : Finset String) (A R : List String)
    (tb : Bool) (h : (tagsOp T A R tb).newSet = T) :
    (tagsOp T A R tb).status =
      { retcode := 0, pfx := "[SKIP] "
        message := "All requested tags already set: " ++
          String.intercalate "," (sortedTags T)
        changes := [] } := by
  by_cases hne : tagsApply T (dedup2 R A).2 (dedup2 R A).1 ≠ T
  · exfalso
    apply hne
    have h2 : (tagsOp T A R tb).newSet =
        tagsApply T (dedup2 R A).2 (dedup2 R A).1 := by
      unfold tagsOp
      rw [if_pos hne]
    rw [← h2]
    exact h
  · unfold tagsOp
    rw [if_neg hne]

theorem tagsOp_status_change (T : Finset String) (A R : List String)
    (tb : Bool) (h : (tagsOp T A R tb).newSet ≠ T) :
    (tagsOp T A R tb).status =
      { retcode := 0, pfx := "", message := ""
        changes := [("old", sortedTags T),
          ("new", sortedTags ((tagsOp T A R tb).newSet))] } := by
  by_cases hne : tagsApply T (dedup2 R A).2 (dedup2 R A).1 ≠ T
  · have hN : (tagsOp T A R tb).newSet =
        tagsApply T (dedup2 R A).2 (dedup2 R A).1 := by
      unfold tagsOp
      rw [if_pos hne]
    rw [hN]
    unfold tagsOp
    rw [if_pos hne]
  · exfalso
    apply h
    unfold tagsOp
    rw [if_neg hne]
    push_neg at hne
    exact hne

/-- C3: with disjoint add and remove lists, the `tags` reconciler computes
exactly `(S ∪ A) \ R` as the new tag set; when that set equals the current
one it reports a `[SKIP] `-annotated record listing the unchanged set sorted
and no changes (`changed` false), otherwise it records the sorted old and new
sets under `old`/`new`; and reconciling the resulting set again with the same
lists leaves it unchanged and reports a skip. -/
theorem c3_tags_reconcile (S : Finset String) (A R : List String)
    (test t2 : Bool) (hd : ∀ a ∈ A, a ∉ R) :
    (tagsOp S A R test).newSet = (S ∪ A.toFinset) \ R.toFinset ∧
    ((tagsOp S A R test).newSet = S →
      (tagsOp S A R test).status =
        { retcode := 0, pfx := "[SKIP] "
          message := "All requested tags already set: " ++
            String.intercalate "," (sortedTags S)
          changes := [] }) ∧
    ((tagsOp S A R test).newSet ≠ S →
      (tagsOp S A R test).status =
        { retcode := 0, pfx := "", message := ""
          changes := [("old", sortedTags S),
            ("new", sortedTags ((tagsOp S A R test).newSet))] }) ∧
    (tagsOp ((tagsOp S A R test).newSet) A R t2).newSet =
      (tagsOp S A R test).newSet ∧
    (tagsOp ((tagsOp S A R test).newSet) A R t2).status.pfx = "[SKIP] " ∧
    (tagsOp ((tagsOp S A R test).newSet) A R t2).status.changes = [] := by
  have h1 := tagsOp_newSet S A R test hd
  have hidem : (tagsOp ((tagsOp S A R test).newSet) A R t2).newSet =
      (tagsOp S A R test).newSet := by
    rw [tagsOp_newSet ((tagsOp S A R test).newSet) A R t2 hd, h1]
    apply Finset.ext
    intro x
    simp only [Finset.mem_sdiff, Finset.mem_union]
    tauto
  have hskip2 := tagsOp_status_skip ((tagsOp S A R test).newSet) A R t2 hidem
  refine ⟨h1, tagsOp_status_skip S A R test,
    tagsOp_status_change S A R test, hidem, ?_, ?_⟩
  · rw [hskip2]
  · rw [hskip2]

theorem c3_tags_reconcile_witness :
    (∀ a ∈ ["dev"], a ∉ ["net"]) ∧
    ((tagsOp {"work", "net"} ["dev"] ["net"] false).newSet =
      (({"work", "net"} : Finset String) ∪ ["dev"].toFinset) \
        ["net"].toFinset ∧
    ((tagsOp {"work", "net"} ["dev"] ["net"] false).newSet =
        {"work", "net"} →
      (tagsOp {"work", "net"} ["dev"] ["net"] false).status =
        { retcode := 0, pfx := "[SKIP] "
          message := "All requested tags already set: " ++
            String.intercalate ","
              (sortedTags ({"work", "net"} : Finset String))
          changes := [] }) ∧
    ((tagsOp {"work", "net"} ["dev"] ["net"] false).newSet ≠
        {"work", "net"} →
      (tagsOp {"work", "net"} ["dev"] ["net"] false).status =
        { retcode := 0, pfx := "", message := ""
          changes := [("old",
            sortedTags ({"work", "net"} : Finset String)),
            ("new", sortedTags
              ((tagsOp {"work", "net"} ["dev"] ["net"] false).newSet))] }) ∧
    (tagsOp ((tagsOp {"work", "net"} ["dev"] ["net"] false).newSet)
        ["dev"] ["net"] true).newSet =
      (tagsOp {"work", "net"} ["dev"] ["net"] false).newSet ∧
    (tagsOp ((tagsOp {"work", "net"} ["dev"] ["net"] false).newSet)
        ["dev"] ["net"] true).status.pfx = "[SKIP] " ∧
    (tagsOp ((tagsOp {"work", "net"} ["dev"] ["net"] false).newSet)
        ["dev"] ["net"] true).status.changes = []) :=
  ⟨by decide, c3_tags_reconcile {"work", "net"} ["dev"] ["net"] false true
    (by decide)⟩

end QvmVerify
